import Mathlib

/-!
Verification of the stream DAQ pipeline of `miniscope_io.stream_daq`
(`StreamDaq`): derived buffer sizes, the bitstream framer, the
buffer-to-frame grouper, the trim/pad step, the frame assembler and the
capture queue pre-load, shallowly embedded as executable Lean functions.

Numbers read from device headers are unsigned bit fields and are modelled
as `Nat`; payload bytes are modelled as `Nat` (values < 256 in practice,
nothing below depends on the bound); Python float arithmetic on the small
integral quantities involved is exact and is modelled by `ℚ`.
-/

namespace MiniscopeIO

/-- The fields of `StreamDevConfig` used by `StreamDaq`
(`miniscope_io.models.stream.StreamDevConfig`). -/
structure StreamDevConfig where
  frame_width : Nat
  frame_height : Nat
  buffer_block_length : Nat
  block_size : Nat
  header_len : Nat
  pix_depth : Nat
deriving Repr, DecidableEq

/-- Python `int()` applied to an exact rational: truncation toward zero. -/
def pyTrunc (x : ℚ) : ℤ :=
  if 0 ≤ x then ⌊x⌋ else ⌈x⌉

/-- Python `divmod(a, b)` on (exactly represented) floats with `b ≠ 0`:
`(floor(a/b), a - b*floor(a/b))`. -/
def pyDivmod (a b : ℚ) : ℚ × ℚ :=
  (⌊a / b⌋, a - b * ⌊a / b⌋)

/-- `px_per_buffer` as computed inside the `buffer_npix` property:
`buffer_block_length * block_size - header_len / 8`, with Python true
division (`/`), hence rational-valued. -/
def px_per_buffer (c : StreamDevConfig) : ℚ :=
  (c.buffer_block_length : ℚ) * (c.block_size : ℚ) - (c.header_len : ℚ) / 8

/-- The `StreamDaq.buffer_npix` property:
`quotient, remainder = divmod(px_per_frame, px_per_buffer)` and
`[int(px_per_buffer)] * int(quotient) + [int(remainder)]`.
`none` models the `ZeroDivisionError` raised when `px_per_buffer == 0`;
a negative repetition count yields the empty list, as in Python. -/
def buffer_npix (c : StreamDevConfig) : Option (List ℤ) :=
  let px_per_frame : ℚ := (c.frame_width : ℚ) * (c.frame_height : ℚ)
  let p := px_per_buffer c
  if p = 0 then none
  else
    let qr := pyDivmod px_per_frame p
    some (List.replicate (pyTrunc qr.1).toNat (pyTrunc p) ++ [pyTrunc qr.2])

/-- `StreamDaq._trim`: trim or pad `data` to
`expected_size_array[header.frame_buffer_count]`.  The function first reads
`expected_size_array[0]` (for a warning) and then the indexed entry; `none`
models the `IndexError` raised when an index is out of range. -/
def trim (data : List Nat) (expected_size_array : List Nat)
    (frame_buffer_count : Nat) : Option (List Nat) :=
  match expected_size_array.get? 0 with
  | none => none
  | some _ =>
    match expected_size_array.get? frame_buffer_count with
    | none => none
    | some expected_data_size =>
      if data.length > expected_data_size then
        some (data.take expected_data_size)
      else if data.length < expected_data_size then
        some (data ++ List.replicate (expected_data_size - data.length) 0)
      else
        some data

/-- The trim-or-pad of a payload to an expected size, as a total function:
the prefix of length `expected` when the payload is longer, the payload
right-padded with zero bytes otherwise (unchanged when equal). -/
def trimmed (data : List Nat) (expected : Nat) : List Nat :=
  if expected < data.length then data.take expected
  else data ++ List.replicate (expected - data.length) 0

/-- Modelled from the spec: the decoded buffer header
(`miniscope_io.models.stream.StreamBufferHeader`, whose source is not in
`src/`).  Per the spec, header fields are extracted from the declared bit
fields and interpreted as unsigned, so they are natural numbers; only the
fields the grouper consults are modelled. -/
structure StreamBufferHeader where
  frame_num : Nat
  buffer_count : Nat
  frame_buffer_count : Nat
deriving Repr, DecidableEq

/-- `frame_buffer_prealloc` in `_buffer_to_frame`:
`[np.zeros(bufsize, dtype=np.uint8) for bufsize in self.buffer_npix]`. -/
def frame_buffer_prealloc (npix : List Nat) : List (List Nat) :=
  npix.map (fun bufsize => List.replicate bufsize 0)

/-- The per-iteration state of the `_buffer_to_frame` loop: the current
frame number (initially `-1`) and the frame slot array. -/
structure GrouperState where
  cur_fm_num : Int
  frame_buffer : List (List Nat)
deriving Repr, DecidableEq

/-- The state of `_buffer_to_frame` before its first iteration. -/
def grouperInit (npix : List Nat) : GrouperState :=
  { cur_fm_num := -1, frame_buffer := frame_buffer_prealloc npix }

/-- One iteration of the `_buffer_to_frame` loop body on a parsed
`(header, payload)` item: trim (an out-of-range `frame_buffer_count`
raises `IndexError`, caught, and the loop `continue`s), then the
frame-boundary logic.  Returns the successor state together with the list
of frame slot arrays pushed to `frame_buffer_queue` (Q2) this iteration. -/
def grouperStep (npix : List Nat) (st : GrouperState)
    (header : StreamBufferHeader) (payload : List Nat) :
    GrouperState × List (List (List Nat)) :=
  match trim payload npix header.frame_buffer_count with
  | none => (st, [])
  | some serial_buffer =>
    if (header.frame_num : Int) ≠ st.cur_fm_num then
      if st.cur_fm_num = -1 ∧ header.frame_buffer_count ≠ 0 then
        (st, [])
      else
        ({ cur_fm_num := (header.frame_num : Int),
           frame_buffer :=
             (frame_buffer_prealloc npix).set header.frame_buffer_count
               serial_buffer },
         [st.frame_buffer])
    else
      ({ st with
         frame_buffer :=
           st.frame_buffer.set header.frame_buffer_count serial_buffer },
       [])

/-- The `_buffer_to_frame` loop over a list of parsed items: the final
state and everything pushed to Q2, in order. -/
def grouperRun (npix : List Nat) (st : GrouperState) :
    List (StreamBufferHeader × List Nat) →
      GrouperState × List (List (List Nat))
  | [] => (st, [])
  | (h, p) :: rest =>
    let stepped := grouperStep npix st h p
    let tail := grouperRun npix stepped.1 rest
    (tail.1, stepped.2 ++ tail.2)

/-- Row-major reshape of a flat pixel list to `rows` rows of `cols`
entries, as `np.reshape(flat, (rows, cols))` lays it out when
`flat.length = rows * cols`. -/
def reshape2D (rows cols : Nat) (l : List Nat) : List (List Nat) :=
  match rows with
  | 0 => []
  | r + 1 => l.take cols :: reshape2D r cols (l.drop cols)

/-- One iteration of `_format_frame` on a frame slot array taken from Q2:
empty lists are skipped (`continue`, modelled by `none`); otherwise the
slots are concatenated and `np.reshape(frame_data, (frame_width,
frame_height))` is attempted; on a size mismatch (`ValueError`) an
all-zero `np.zeros((frame_width, frame_height))` frame is produced. -/
def formatFrame (c : StreamDevConfig) (frame_data : List (List Nat)) :
    Option (List (List Nat)) :=
  if frame_data.length = 0 then none
  else
    let flat := frame_data.flatten
    if flat.length = c.frame_width * c.frame_height then
      some (reshape2D c.frame_width c.frame_height flat)
    else
      some (List.replicate c.frame_width (List.replicate c.frame_height 0))

/-- The numpy shape of a row-major matrix: (number of rows, length of the
first row). -/
def matShape (m : List (List Nat)) : Nat × Nat :=
  (m.length, (m.headD []).length)

/-- One byte as its eight bits, most significant first, as a
`bitstring.BitArray` stores bytes. -/
def byteToBits (b : Nat) : List Bool :=
  (List.range 8).map (fun i => b / 2 ^ (7 - i) % 2 == 1)

/-- A byte chunk as a bit sequence (`BitArray(buf)`). -/
def bytesToBits (bs : List Nat) : List Bool :=
  (bs.map byteToBits).flatten

/-- `cur_buffer.findall(pre)`: the bit positions of every occurrence of
`pre` in `buf`, overlapping occurrences included, in increasing order. -/
def findallPos (pre buf : List Bool) : List Nat :=
  (List.range (buf.length + 1)).filter
    (fun i => decide ((buf.drop i).take pre.length = pre))

/-- Python slice `buf[start:stop]`. -/
def bitSlice (buf : List Bool) (start stop : Nat) : List Bool :=
  (buf.take stop).drop start

/-- What one iteration of the `_fpga_recv` read loop produces from the
rolling bit buffer: the buffers pushed to `serial_buffer_queue` (Q1), as
bit regions, and the truncated rolling buffer. -/
structure FramerOut where
  pushed : List (List Bool)
  cur_buffer : List Bool
deriving Repr, DecidableEq

/-- The framing part of one `_fpga_recv` iteration: append the chunk bits
`dat` to the rolling buffer, find all preamble positions, push the region
between each adjacent pair of positions (shifting both endpoints by the
preamble length when `pre_first` is false), and truncate the rolling
buffer to start at the last position.  The preamble is modelled as its bit
pattern, so `len(self.preamble)` is its bit length. -/
def framerStep (preamble : List Bool) (pre_first : Bool)
    (cur_buffer : List Bool) (dat : List Bool) : FramerOut :=
  let buf := cur_buffer ++ dat
  let pre_pos := findallPos preamble buf
  let pushed := (pre_pos.dropLast.zip pre_pos.tail).map (fun pq =>
    if pre_first then bitSlice buf pq.1 pq.2
    else bitSlice buf (pq.1 + preamble.length) (pq.2 + preamble.length))
  let cur := if pre_pos.isEmpty then buf else buf.drop (pre_pos.getLastD 0)
  ⟨pushed, cur⟩

/-- The state threaded through the `_fpga_recv` read loop: the rolling bit
buffer, the binary-capture file contents, and everything pushed to Q1. -/
structure FpgaRecvState where
  cur_buffer : List Bool
  capture_file : List Nat
  pushed : List (List Bool)
deriving Repr, DecidableEq

/-- One iteration of the `_fpga_recv` read loop on the chunk `buf`
returned by `dev.readData`: when `capture_binary` is set the raw chunk is
appended to the capture file (append mode, never truncating), then the
chunk is framed into buffers. -/
def fpgaRecvStep (preamble : List Bool) (pre_first : Bool)
    (capture_binary : Bool) (st : FpgaRecvState) (buf : List Nat) :
    FpgaRecvState :=
  let file := if capture_binary then st.capture_file ++ buf
              else st.capture_file
  let out := framerStep preamble pre_first st.cur_buffer (bytesToBits buf)
  ⟨out.cur_buffer, file, st.pushed ++ out.pushed⟩

/-- The `_fpga_recv` read loop over the chunks returned by the device, in
read order. -/
def fpgaRecvRun (preamble : List Bool) (pre_first : Bool)
    (capture_binary : Bool) (init : FpgaRecvState)
    (chunks : List (List Nat)) : FpgaRecvState :=
  chunks.foldl (fpgaRecvStep preamble pre_first capture_binary) init

/-- Python `max` over `buffer_npix` (always non-empty in use). -/
def listMax (l : List Nat) : Nat :=
  l.foldl max 0

/-- The default read length chosen by `_fpga_recv` when `read_length is
None`: `int(max(self.buffer_npix) * self.config.pix_depth / 8 / 16) * 16`,
with Python true division (exact here, modelled by `ℚ`) and `int()`
truncation. -/
def readLengthDefault (npix : List Nat) (pix_depth : Nat) : Nat :=
  ⌊((listMax npix * pix_depth : Nat) : ℚ) / 8 / 16⌋₊ * 16

/-- An element of the image queue Q3: either a 1-D array (as pre-loaded by
`capture`) or a 2-D frame (as pushed by `_format_frame`). -/
inductive ImageItem where
  | oneD : List Nat → ImageItem
  | twoD : List (List Nat) → ImageItem
deriving Repr, DecidableEq

/-- The image queue Q3 as `capture` leaves it before launching any stage:
`imagearray.put(np.zeros(int(frame_width * frame_height), np.uint8))`. -/
def captureInitQ3 (c : StreamDevConfig) : List ImageItem :=
  [ImageItem.oneD (List.replicate (c.frame_width * c.frame_height) 0)]

/-- The FIFO contents of Q3 over a capture, given the frame slot arrays
`_format_frame` consumes from Q2: the pre-loaded zero array first, then
each assembled frame in order. -/
def captureQ3 (c : StreamDevConfig)
    (frameLists : List (List (List Nat))) : List ImageItem :=
  captureInitQ3 c ++
    frameLists.filterMap (fun fd => (formatFrame c fd).map ImageItem.twoD)

/-! ### Helper lemmas -/

lemma pyTrunc_natCast (m : ℕ) : pyTrunc (m : ℚ) = (m : ℤ) := by
  unfold pyTrunc
  rw [if_pos (by positivity), Int.floor_natCast]

lemma pyTrunc_intCast (z : ℤ) : pyTrunc (z : ℚ) = z := by
  unfold pyTrunc
  rcases le_or_lt 0 ((z : ℚ)) with h | h
  · rw [if_pos h, Int.floor_intCast]
  · rw [if_neg (not_le.mpr h), Int.ceil_intCast]

lemma floor_natCast_div_natCast (m n : ℕ) :
    ⌊(m : ℚ) / (n : ℚ)⌋ = ((m / n : ℕ) : ℤ) := by
  have h := Rat.floor_intCast_div_natCast (m : ℤ) n
  push_cast at h
  rw [h]
  exact (Int.ofNat_div m n).symm

lemma trimmed_length (data : List Nat) (e : Nat) :
    (trimmed data e).length = e := by
  unfold trimmed
  split_ifs with h
  · simp only [List.length_take]
    omega
  · simp only [List.length_append, List.length_replicate]
    omega

lemma trim_eq_some (data npix : List Nat) (fbc : Nat)
    (hfbc : fbc < npix.length) :
    trim data npix fbc = some (trimmed data (npix.get ⟨fbc, hfbc⟩)) := by
  have h0 : 0 < npix.length := Nat.lt_of_le_of_lt (Nat.zero_le fbc) hfbc
  unfold trim trimmed
  rw [List.get?_eq_get h0, List.get?_eq_get hfbc]
  dsimp only
  rcases Nat.lt_trichotomy (npix.get ⟨fbc, hfbc⟩) data.length with h | h | h
  · rw [if_pos h, if_pos h]
  · rw [if_neg (by omega), if_neg (by omega), if_neg (by omega),
      (by omega : npix.get ⟨fbc, hfbc⟩ - data.length = 0),
      List.replicate_zero, List.append_nil]
  · rw [if_neg (by omega), if_pos h, if_neg (by omega)]

lemma trim_eq_none (data npix : List Nat) (fbc : Nat)
    (hfbc : npix.length ≤ fbc) :
    trim data npix fbc = none := by
  unfold trim
  cases h : npix.get? 0 with
  | none => rfl
  | some v => rw [List.get?_eq_none.mpr hfbc]

lemma grouperStep_of_lt (npix : List Nat) (st : GrouperState)
    (header : StreamBufferHeader) (payload : List Nat)
    (hfbc : header.frame_buffer_count < npix.length) :
    grouperStep npix st header payload =
      if (header.frame_num : Int) ≠ st.cur_fm_num then
        if st.cur_fm_num = -1 ∧ header.frame_buffer_count ≠ 0 then (st, [])
        else ({ cur_fm_num := (header.frame_num : Int),
                frame_buffer := (frame_buffer_prealloc npix).set
                  header.frame_buffer_count
                  (trimmed payload
                    (npix.get ⟨header.frame_buffer_count, hfbc⟩)) },
              [st.frame_buffer])
      else
        ({ st with
            frame_buffer := st.frame_buffer.set header.frame_buffer_count
              (trimmed payload
                (npix.get ⟨header.frame_buffer_count, hfbc⟩)) },
          []) := by
  unfold grouperStep
  rw [trim_eq_some payload npix header.frame_buffer_count hfbc]

lemma grouperRun_cons (npix : List Nat) (st : GrouperState)
    (hh : StreamBufferHeader) (hp : List Nat)
    (tl : List (StreamBufferHeader × List Nat)) :
    grouperRun npix st ((hh, hp) :: tl) =
      ((grouperRun npix (grouperStep npix st hh hp).1 tl).1,
        (grouperStep npix st hh hp).2 ++
          (grouperRun npix (grouperStep npix st hh hp).1 tl).2) := rfl

lemma grouperStep_init_cases (npix : List Nat)
    (header : StreamBufferHeader) (payload : List Nat) :
    grouperStep npix (grouperInit npix) header payload =
        (grouperInit npix, []) ∨
      (grouperStep npix (grouperInit npix) header payload).2 =
        [frame_buffer_prealloc npix] := by
  by_cases hfbc : header.frame_buffer_count < npix.length
  · rw [grouperStep_of_lt npix _ header payload hfbc]
    have hne : (header.frame_num : Int) ≠ (grouperInit npix).cur_fm_num := by
      show (header.frame_num : Int) ≠ -1
      omega
    rw [if_pos hne]
    by_cases hf : header.frame_buffer_count ≠ 0
    · left
      rw [if_pos ⟨rfl, hf⟩]
    · right
      rw [if_neg (fun hc => hf hc.2)]
      rfl
  · left
    unfold grouperStep
    rw [trim_eq_none payload npix header.frame_buffer_count
      (Nat.le_of_not_lt hfbc)]

lemma getLastD_mem (l : List Nat) (d : Nat) (h : l ≠ []) :
    l.getLastD d ∈ l := by
  induction l generalizing d with
  | nil => exact absurd rfl h
  | cons a t ih =>
    cases t with
    | nil => simp [List.getLastD]
    | cons b m =>
      rw [List.getLastD_cons]
      exact List.mem_cons_of_mem a (ih b (by simp))

lemma findallPos_occurrence {pre buf : List Bool} {p : Nat}
    (hp : p ∈ findallPos pre buf) :
    (buf.drop p).take pre.length = pre := by
  unfold findallPos at hp
  exact of_decide_eq_true (List.mem_filter.mp hp).2

lemma framerStep_pushed (preamble : List Bool) (pre_first : Bool)
    (cur_buffer dat : List Bool) :
    (framerStep preamble pre_first cur_buffer dat).pushed =
      ((findallPos preamble (cur_buffer ++ dat)).dropLast.zip
          (findallPos preamble (cur_buffer ++ dat)).tail).map (fun pq =>
        if pre_first then bitSlice (cur_buffer ++ dat) pq.1 pq.2
        else bitSlice (cur_buffer ++ dat) (pq.1 + preamble.length)
          (pq.2 + preamble.length)) := rfl

lemma framerStep_cur (preamble : List Bool) (pre_first : Bool)
    (cur_buffer dat : List Bool) :
    (framerStep preamble pre_first cur_buffer dat).cur_buffer =
      if (findallPos preamble (cur_buffer ++ dat)).isEmpty then
        cur_buffer ++ dat
      else
        (cur_buffer ++ dat).drop
          ((findallPos preamble (cur_buffer ++ dat)).getLastD 0) := rfl

lemma fpgaRecvRun_capture (preamble : List Bool) (pre_first : Bool)
    (st : FpgaRecvState) (chunks : List (List Nat)) :
    (fpgaRecvRun preamble pre_first true st chunks).capture_file =
      st.capture_file ++ chunks.flatten := by
  induction chunks generalizing st with
  | nil => exact (List.append_nil _).symm
  | cons c cs ih =>
    show (fpgaRecvRun preamble pre_first true
      (fpgaRecvStep preamble pre_first true st c) cs).capture_file = _
    rw [ih]
    show (st.capture_file ++ c) ++ cs.flatten = _
    rw [List.append_assoc]
    rfl

/-! ### C2: buffer_npix -/

/-- C2, counterexample: with `frame_width = frame_height =
buffer_block_length = block_size = 1` and `header_len = 4` (all positive,
as the claim requires), `px_per_buffer = 1 - 4/8 = 1/2`, and
`buffer_npix` evaluates to `[0, 0, 0]`, whose entries differ from
`px_per_buffer` and whose sum `0` differs from
`frame_width * frame_height = 1`. -/
theorem buffer_npix_cex :
    buffer_npix ⟨1, 1, 1, 1, 4, 8⟩ = some [0, 0, 0] ∧
      (List.sum [(0 : ℤ), 0, 0] ≠ ((1 * 1 : ℕ) : ℤ)) := by
  constructor
  · norm_num [buffer_npix, px_per_buffer, pyDivmod, pyTrunc]
    rfl
  · decide

/-- C2 (amended): for every configuration with `frame_width`,
`frame_height`, `buffer_block_length`, `block_size`, `header_len`
positive, such that moreover `header_len` is a multiple of 8 and
`px_per_buffer = buffer_block_length * block_size - header_len/8` is
positive (so that it is a positive integer), `buffer_npix` is
quotient-many entries equal to `px_per_buffer` followed by one final
entry equal to the remainder of dividing `frame_width * frame_height` by
`px_per_buffer`, and its sum is `frame_width * frame_height`. -/
theorem buffer_npix_quot_rem (c : StreamDevConfig)
    (hW : 0 < c.frame_width) (hH : 0 < c.frame_height)
    (hB : 0 < c.buffer_block_length) (hS : 0 < c.block_size)
    (hhl : 0 < c.header_len) (hdvd : 8 ∣ c.header_len)
    (hpos : c.header_len / 8 < c.buffer_block_length * c.block_size) :
    buffer_npix c = some
      (List.replicate
          ((c.frame_width * c.frame_height) /
            (c.buffer_block_length * c.block_size - c.header_len / 8))
          ((c.buffer_block_length * c.block_size - c.header_len / 8 : ℕ) : ℤ) ++
        [(((c.frame_width * c.frame_height) %
            (c.buffer_block_length * c.block_size - c.header_len / 8) : ℕ) : ℤ)]) ∧
      ∀ l : List ℤ, buffer_npix c = some l →
        l.sum = ((c.frame_width * c.frame_height : ℕ) : ℤ) := by
  obtain ⟨k, hk⟩ := hdvd
  have hk8 : c.header_len / 8 = k := by omega
  have hkB : k < c.buffer_block_length * c.block_size := by omega
  set N := c.frame_width * c.frame_height with hN
  set P := c.buffer_block_length * c.block_size - c.header_len / 8 with hP
  have hPpos : 0 < P := by omega
  have hp : px_per_buffer c = (P : ℚ) := by
    unfold px_per_buffer
    rw [hP, hk8, Nat.cast_sub hkB.le, hk]
    push_cast
    ring
  have hPne : px_per_buffer c ≠ 0 := by
    rw [hp]
    exact_mod_cast hPpos.ne'
  have hmain : buffer_npix c =
      some (List.replicate (N / P) ((P : ℕ) : ℤ) ++ [((N % P : ℕ) : ℤ)]) := by
    have hcast : (c.frame_width : ℚ) * (c.frame_height : ℚ) = (N : ℚ) := by
      rw [hN]; push_cast; ring
    have hq : ⌊(N : ℚ) / ((P : ℕ) : ℚ)⌋ = ((N / P : ℕ) : ℤ) :=
      floor_natCast_div_natCast N P
    have hrem : (N : ℚ) - (P : ℚ) * (((N / P : ℕ) : ℤ) : ℚ) = ((N % P : ℕ) : ℚ) := by
      have h2 : ((P * (N / P) + N % P : ℕ) : ℚ) = (N : ℚ) := by
        exact_mod_cast congrArg (fun m : ℕ => (m : ℚ)) (Nat.div_add_mod N P)
      push_cast at h2
      rw [Int.cast_natCast]
      linarith
    unfold buffer_npix pyDivmod
    rw [if_neg hPne, hp, hcast, hq, hrem]
    simp only [Int.cast_natCast, pyTrunc_natCast, Int.toNat_natCast]
  refine ⟨hmain, ?_⟩
  intro l hl
  rw [hmain] at hl
  injection hl with hl
  subst hl
  have hsum : ((N / P : ℕ) : ℤ) * (P : ℤ) + ((N % P : ℕ) : ℤ) = (N : ℤ) := by
    exact_mod_cast congrArg (fun m : ℕ => (m : ℤ))
      (by rw [Nat.mul_comm]; exact Nat.div_add_mod N P :
        (N / P) * P + N % P = N)
  rw [List.sum_append, List.sum_replicate, List.sum_cons, List.sum_nil,
    add_zero, nsmul_eq_mul]
  exact hsum

/-- C2, witness: the amended theorem applied to the configuration
`frame_width = frame_height = 4`, `buffer_block_length = block_size = 2`,
`header_len = 8`, where `px_per_buffer = 3` and
`buffer_npix = [3, 3, 3, 3, 3, 1]`. -/
theorem buffer_npix_quot_rem_witness :
    buffer_npix ⟨4, 4, 2, 2, 8, 8⟩ =
      some [(3 : ℤ), 3, 3, 3, 3, 1] := by
  have h := (buffer_npix_quot_rem ⟨4, 4, 2, 2, 8, 8⟩ (by decide) (by decide)
    (by decide) (by decide) (by decide) (by decide) (by decide)).1
  simpa using h

/-! ### C3: trim/pad -/

/-- C3: for every payload and every header whose `frame_buffer_count` is a
valid index into `buffer_npix`, `_trim` returns an array of length exactly
`buffer_npix[frame_buffer_count]`: the input prefix of that length when
the input is longer, the input right-padded with zero bytes when it is
shorter, and the input unchanged when it already has that length. -/
theorem trim_length_spec (data npix : List Nat) (fbc : Nat)
    (hfbc : fbc < npix.length) :
    ∃ r : List Nat, trim data npix fbc = some r ∧
      r.length = npix.get ⟨fbc, hfbc⟩ ∧
      (npix.get ⟨fbc, hfbc⟩ < data.length →
        r = data.take (npix.get ⟨fbc, hfbc⟩)) ∧
      (data.length < npix.get ⟨fbc, hfbc⟩ →
        r = data ++ List.replicate (npix.get ⟨fbc, hfbc⟩ - data.length) 0) ∧
      (data.length = npix.get ⟨fbc, hfbc⟩ → r = data) := by
  refine ⟨trimmed data (npix.get ⟨fbc, hfbc⟩),
    trim_eq_some data npix fbc hfbc,
    trimmed_length data (npix.get ⟨fbc, hfbc⟩), ?_, ?_, ?_⟩
  · intro h
    unfold trimmed
    rw [if_pos h]
  · intro h
    unfold trimmed
    rw [if_neg (by omega)]
  · intro h
    unfold trimmed
    rw [if_neg (by omega), (by omega : npix.get ⟨fbc, hfbc⟩ - data.length = 0),
      List.replicate_zero, List.append_nil]

/-- C3, witness: a payload of length 5 against expected size
`buffer_npix[1] = 2` is truncated to its prefix of length 2. -/
theorem trim_length_spec_witness :
    trim [1, 2, 3, 4, 5] [3, 2] 1 = some [1, 2] := by
  obtain ⟨r, hr, -, hlong, -, -⟩ :=
    trim_length_spec [1, 2, 3, 4, 5] [3, 2] 1 (by decide)
  rw [hr, hlong (by decide)]
  rfl

/-! ### C4: out-of-range frame_buffer_count -/

/-- C4: for every decoded header with `frame_buffer_count ≥
nbuffer_per_fm = len(buffer_npix)`, the grouper drops the buffer without
raising: no frame-slot write, no emission, and the grouper state
(`cur_fm_num` and the frame slot array) are unchanged, so processing
continues with the next buffer. -/
theorem grouperStep_out_of_range (npix : List Nat) (st : GrouperState)
    (header : StreamBufferHeader) (payload : List Nat)
    (h : npix.length ≤ header.frame_buffer_count) :
    grouperStep npix st header payload = (st, []) := by
  unfold grouperStep
  rw [trim_eq_none payload npix header.frame_buffer_count h]

/-- C4, witness: with `buffer_npix = [3, 2]` (`nbuffer_per_fm = 2`), a
header with `frame_buffer_count = 2` is dropped and the state is
unchanged. -/
theorem grouperStep_out_of_range_witness :
    grouperStep [3, 2] (grouperInit [3, 2]) ⟨5, 7, 2⟩ [1, 2, 3] =
      (grouperInit [3, 2], []) :=
  grouperStep_out_of_range [3, 2] (grouperInit [3, 2]) ⟨5, 7, 2⟩ [1, 2, 3]
    (by decide)

/-! ### C5: edge-triggered emission -/

/-- C5: for a consumed item with in-range `frame_buffer_count`, a frame
slot array is pushed to Q2 exactly when the header's `frame_num` differs
from `cur_fm_num`, outside the initial-state special case; at most one
array is pushed per item, and when one is pushed it is the current frame
slot array; in the special case `cur_fm_num = -1` with
`frame_buffer_count ≠ 0`, the item is discarded with no push, no slot
write, and the state (including `cur_fm_num = -1`) unchanged. -/
theorem grouperStep_push_iff (npix : List Nat) (st : GrouperState)
    (header : StreamBufferHeader) (payload : List Nat)
    (hfbc : header.frame_buffer_count < npix.length) :
    ((grouperStep npix st header payload).2 ≠ [] ↔
      ((header.frame_num : Int) ≠ st.cur_fm_num ∧
        ¬(st.cur_fm_num = -1 ∧ header.frame_buffer_count ≠ 0))) ∧
      (grouperStep npix st header payload).2.length ≤ 1 ∧
      ((grouperStep npix st header payload).2 ≠ [] →
        (grouperStep npix st header payload).2 = [st.frame_buffer]) ∧
      (st.cur_fm_num = -1 → header.frame_buffer_count ≠ 0 →
        grouperStep npix st header payload = (st, [])) := by
  rw [grouperStep_of_lt npix st header payload hfbc]
  by_cases h1 : (header.frame_num : Int) = st.cur_fm_num
  · rw [if_neg (not_not_intro h1)]
    refine ⟨by simp [h1], by simp, by simp, ?_⟩
    intro hcur hf
    exfalso
    rw [hcur] at h1
    omega
  · rw [if_pos h1]
    by_cases h2 : st.cur_fm_num = -1 ∧ header.frame_buffer_count ≠ 0
    · rw [if_pos h2]
      exact ⟨by simp [h2], by simp, by simp, fun _ _ => rfl⟩
    · rw [if_neg h2]
      refine ⟨by simp [h1, h2], by simp, by simp, ?_⟩
      intro hcur hf
      exact absurd ⟨hcur, hf⟩ h2

/-- C5, witness: with `cur_fm_num = 0`, a header carrying `frame_num = 1`
(and `frame_buffer_count = 0 < 2`) triggers exactly one push, of the
current frame slot array. -/
theorem grouperStep_push_iff_witness :
    (grouperStep [3, 2] ⟨0, [[9, 9, 9], [0, 0]]⟩ ⟨1, 5, 0⟩ [7, 7, 7]).2 =
      [[[9, 9, 9], [0, 0]]] := by
  have h := (grouperStep_push_iff [3, 2] ⟨0, [[9, 9, 9], [0, 0]]⟩ ⟨1, 5, 0⟩
    [7, 7, 7] (by decide)).2.2.1 (by decide)
  simpa using h

/-! ### C9: leading all-zero frame -/

/-- C9: starting from the initial grouper state (`cur_fm_num = -1`, frame
slot array equal to the untouched pre-allocation, every slot an all-zero
array of the corresponding `buffer_npix` size), whenever the grouper
emits anything at all over a capture, the first item it pushes to Q2 is
that all-zero pre-allocated slot array. -/
theorem grouperRun_first_emission_zero (npix : List Nat)
    (items : List (StreamBufferHeader × List Nat))
    (h : (grouperRun npix (grouperInit npix) items).2 ≠ []) :
    (grouperRun npix (grouperInit npix) items).2.head? =
        some (frame_buffer_prealloc npix) ∧
      ∀ slot ∈ frame_buffer_prealloc npix, ∀ x ∈ slot, x = 0 := by
  constructor
  · revert h
    induction items with
    | nil => exact fun h => absurd rfl h
    | cons hd tl ih =>
      intro h
      obtain ⟨hh, hp⟩ := hd
      rcases grouperStep_init_cases npix hh hp with hc | hc
      · rw [grouperRun_cons, hc] at h ⊢
        simp only [List.nil_append] at h ⊢
        exact ih h
      · rw [grouperRun_cons, hc]
        rfl
  · intro slot hs x hx
    unfold frame_buffer_prealloc at hs
    obtain ⟨n, -, rfl⟩ := List.mem_map.mp hs
    exact List.eq_of_mem_replicate hx

/-- C9, witness: with `buffer_npix = [2, 1]` and a first item whose header
has `frame_buffer_count = 0`, the grouper emits, and its first emission is
the all-zero pre-allocated slot array. -/
theorem grouperRun_first_emission_zero_witness :
    (grouperRun [2, 1] (grouperInit [2, 1]) [(⟨0, 0, 0⟩, [5, 5])]).2.head? =
      some (frame_buffer_prealloc [2, 1]) :=
  (grouperRun_first_emission_zero [2, 1] [(⟨0, 0, 0⟩, [5, 5])] (by decide)).1

/-! ### C1: assembled frame shape -/

/-- C1: at `frame_width = 2`, `frame_height = 3` and the frame slot list
`[[1,2,3],[4,5,6]]`, whose concatenated length `6` equals
`frame_height * frame_width`, `_format_frame` pushes an array of numpy
shape `(frame_width, frame_height) = (2, 3)` — the reshape target in the
code is `(self.config.frame_width, self.config.frame_height)` — and not
`(frame_height, frame_width) = (3, 2)` as the claim states (and as
`init_video`'s `cv2.VideoWriter` frame size `(frame_width, frame_height)`
expects of the arrays written to it). -/
theorem formatFrame_transposed_shape :
    (formatFrame ⟨2, 3, 1, 1, 8, 8⟩ [[1, 2, 3], [4, 5, 6]]).map matShape =
        some (2, 3) ∧
      ((2, 3) : Nat × Nat) ≠ ((3, 2) : Nat × Nat) := by
  decide

/-! ### C10: Q3 pre-load -/

/-- C10: `capture` pre-loads Q3 with a 1-D all-zero uint8 array of length
`frame_width * frame_height` before launching any stage, so for every
capture the first item drained from Q3 is that zero array, which is
one-dimensional (distinct from every 2-D frame `_format_frame` pushes)
and not derived from any device data. -/
theorem captureQ3_head (c : StreamDevConfig)
    (frameLists : List (List (List Nat))) :
    (captureQ3 c frameLists).head? =
        some (ImageItem.oneD
          (List.replicate (c.frame_width * c.frame_height) 0)) ∧
      ∀ m : List (List Nat),
        ImageItem.oneD (List.replicate (c.frame_width * c.frame_height) 0) ≠
          ImageItem.twoD m := by
  constructor
  · rfl
  · intro m hm
    exact ImageItem.noConfusion hm

/-! ### C6: framer slicing -/

/-- C6: in each Framer iteration, with preamble positions
`p_0 < ... < p_k` found in the rolling bit buffer, exactly the regions
between consecutive pairs are pushed to Q1 — `[p_i, p_{i+1})` including
the leading preamble when `pre_first` is true, both endpoints shifted by
the preamble length when it is false — and the rolling buffer is
truncated to begin at the last occurrence `p_k` (so the fragment before
`p_0` is discarded and the tail after `p_k`, beginning with the preamble
itself, is retained); with no occurrence the buffer is kept whole. -/
theorem framerStep_regions (preamble cur_buffer dat : List Bool)
    (pre_first : Bool) (hpre : preamble ≠ []) :
    (framerStep preamble pre_first cur_buffer dat).pushed.length =
        (findallPos preamble (cur_buffer ++ dat)).length - 1 ∧
      (∀ i (hi : i + 1 < (findallPos preamble (cur_buffer ++ dat)).length),
        (framerStep preamble pre_first cur_buffer dat).pushed[i]? =
          some (if pre_first then
              bitSlice (cur_buffer ++ dat)
                ((findallPos preamble (cur_buffer ++ dat)).get ⟨i, by omega⟩)
                ((findallPos preamble (cur_buffer ++ dat)).get ⟨i + 1, hi⟩)
            else
              bitSlice (cur_buffer ++ dat)
                ((findallPos preamble (cur_buffer ++ dat)).get ⟨i, by omega⟩ +
                  preamble.length)
                ((findallPos preamble (cur_buffer ++ dat)).get ⟨i + 1, hi⟩ +
                  preamble.length))) ∧
      (findallPos preamble (cur_buffer ++ dat) ≠ [] →
        (framerStep preamble pre_first cur_buffer dat).cur_buffer =
            (cur_buffer ++ dat).drop
              ((findallPos preamble (cur_buffer ++ dat)).getLastD 0) ∧
          (framerStep preamble pre_first cur_buffer dat).cur_buffer.take
              preamble.length = preamble) ∧
      (findallPos preamble (cur_buffer ++ dat) = [] →
        (framerStep preamble pre_first cur_buffer dat).cur_buffer =
          cur_buffer ++ dat) := by
  refine ⟨?_, ?_, ?_, ?_⟩
  · rw [framerStep_pushed]
    simp [List.length_zip, List.length_dropLast, List.length_tail]
  · intro i hi
    rw [framerStep_pushed, List.getElem?_map]
    have hz : i < ((findallPos preamble (cur_buffer ++ dat)).dropLast.zip
        (findallPos preamble (cur_buffer ++ dat)).tail).length := by
      simp only [List.length_zip, List.length_dropLast, List.length_tail]
      omega
    rw [List.getElem?_eq_getElem hz]
    simp only [List.getElem_zip, List.getElem_dropLast, List.getElem_tail,
      List.get_eq_getElem, Option.map_some']
  · intro hne
    rw [framerStep_cur, if_neg (by simpa [List.isEmpty_iff] using hne)]
    refine ⟨rfl, ?_⟩
    exact findallPos_occurrence
      (getLastD_mem (findallPos preamble (cur_buffer ++ dat)) 0 hne)
  · intro heq
    rw [framerStep_cur, heq]
    rfl

/-- C6, witness: with preamble `10` and chunk bits `110100`, the
occurrences are at positions 1 and 3, one region is pushed, and its count
matches. -/
theorem framerStep_regions_witness :
    (framerStep [true, false] true []
        [true, true, false, true, false, false]).pushed.length =
      (findallPos [true, false]
        ([] ++ [true, true, false, true, false, false])).length - 1 :=
  (framerStep_regions [true, false] [] [true, true, false, true, false, false]
    true (by decide)).1

/-! ### C7: binary capture -/

/-- C7: with binary capture enabled, over any run of the `_fpga_recv` read
loop every chunk returned by the device is appended verbatim to the
capture file in read order (never truncating what the file held before),
so a capture file starting empty ends up holding exactly the device's
byte stream — the concatenation of its chunks. -/
theorem fpgaRecv_capture_file (preamble : List Bool) (pre_first : Bool)
    (init_bits : List Bool) (init_file : List Nat)
    (init_pushed : List (List Bool)) (chunks : List (List Nat)) :
    (fpgaRecvRun preamble pre_first true ⟨init_bits, init_file, init_pushed⟩
          chunks).capture_file = init_file ++ chunks.flatten ∧
      (fpgaRecvRun preamble pre_first true ⟨init_bits, [], init_pushed⟩
          chunks).capture_file = chunks.flatten :=
  ⟨fpgaRecvRun_capture preamble pre_first ⟨init_bits, init_file, init_pushed⟩
      chunks,
    fpgaRecvRun_capture preamble pre_first ⟨init_bits, [], init_pushed⟩ chunks⟩

/-! ### C8: default read length -/

/-- C8: when `read_length` is not supplied, the Framer uses
`int(max(buffer_npix) * pix_depth / 8 / 16) * 16`, which equals the
natural number `max(buffer_npix) * pix_depth / 128 * 16` (a single floor
of the exact double division) and is a (non-negative, being a natural
number) integer multiple of 16. -/
theorem readLengthDefault_spec (npix : List Nat) (pix_depth : Nat) :
    readLengthDefault npix pix_depth =
        ⌊((listMax npix * pix_depth : Nat) : ℚ) / 8 / 16⌋₊ * 16 ∧
      readLengthDefault npix pix_depth =
        listMax npix * pix_depth / 128 * 16 ∧
      16 ∣ readLengthDefault npix pix_depth := by
  have key : readLengthDefault npix pix_depth =
      listMax npix * pix_depth / 128 * 16 := by
    unfold readLengthDefault
    rw [div_div, show (8 : ℚ) * 16 = ((128 : ℕ) : ℚ) by norm_num,
      Nat.floor_div_eq_div]
  exact ⟨rfl, key, key ▸ dvd_mul_left 16 _⟩

end MiniscopeIO
